import Mathlib

/-!
Shallow embedding of the rightson/transcript-utility repository.

The repository contains three variants of a chunked, resumable audio
transcription pipeline:

* `transcript_utility.py`   — namespace `TU` below
* `yt_transcript.py`        — namespace `YT` below
* `youtube_audio_transcript.py` — namespace `AT` below

The file system is modelled explicitly: chunk transcript records are an
association list from segment index to cached text (the concrete file name of
the record for index `i` is computed by `TU.chunk_transcript_path`), and the
final transcript artifact is an `Option String`.  An audio buffer is modelled
by its duration in milliseconds; pydub slicing `audio[s:e]` clamps both ends
to the duration.  The speech-to-text backend is an abstract function from the
(clamped) slice bounds to `Option String`, where `none` models a raised
transcription error.
-/

/-- Contents of the chunk record for index `i` in store `s` (file read),
`none` when the file does not exist. -/
def readChunk (s : List (Nat × String)) (i : Nat) : Option String :=
  (s.find? (fun p => p.1 == i)).map Prod.snd

/-- Remove any record for index `i` (overwrite helper). -/
def eraseChunk (i : Nat) : List (Nat × String) → List (Nat × String)
  | [] => []
  | p :: ps => if p.1 == i then eraseChunk i ps else p :: eraseChunk i ps

/-- `open(path, 'w').write(t)`: (over)write the chunk record for index `i`. -/
def writeChunk (s : List (Nat × String)) (i : Nat) (t : String) : List (Nat × String) :=
  (i, t) :: eraseChunk i s

/-- Concatenation of a list of strings (Python `+=` accumulation). -/
def joinAll : List String → String
  | [] => ""
  | x :: xs => x ++ joinAll xs

/-- `math.ceil(a / b)` on natural numbers. -/
def ceilDiv (a b : Nat) : Nat := (a + b - 1) / b

/-- Lexicographic order on character lists by code point, as Python compares
strings. -/
def charListLt : List Char → List Char → Bool
  | [], [] => false
  | [], _ :: _ => true
  | _ :: _, [] => false
  | a :: as, b :: bs =>
    if a.val < b.val then true
    else if b.val < a.val then false
    else charListLt as bs

/-- Python string `<` (lexicographic by code point). -/
def strLt (a b : String) : Bool := charListLt a.data b.data

/-- A store holding exactly the records for indices `0 .. m-1`, record `j`
holding text `g j`.  Used to state theorems about contiguously cached runs. -/
def contigStore (g : Nat → String) : Nat → List (Nat × String)
  | 0 => []
  | m + 1 => (m, g m) :: contigStore g m

/-- Modelled from the spec: the resume point as the specification words it —
the count of contiguous cached records starting at index 0, i.e. the first
index with no cached record (bounded search, sufficient fuel). -/
def contigFrom (cached : List Nat) : Nat → Nat → Nat
  | 0, i => i
  | fuel + 1, i => if i ∈ cached then contigFrom cached fuel (i + 1) else i

/-- Modelled from the spec: "the resume point is the count of contiguous
cached records starting at index 0".  For comparison with `TU.start_chunk`. -/
def specContiguousResume (cached : List Nat) : Nat :=
  contigFrom cached (cached.length + 1) 0

namespace TU

/-! ### transcript_utility.py -/

/-- `get_output_file_path` (lines 60-62):
`os.path.join(output_dir, f"{base_name}.{extension}")`. -/
def get_output_file_path (output_dir base_name extension : String) : String :=
  output_dir ++ "/" ++ base_name ++ "." ++ extension

/-- The file name of chunk `chunk_index`'s transcript record
(line 217): `get_output_file_path(output_dir, f'{base_name}_chunk_{chunk_index}', "txt")`. -/
def chunk_transcript_path (output_dir base_name : String) (chunk_index : Nat) : String :=
  get_output_file_path output_dir (base_name ++ "_chunk_" ++ Nat.repr chunk_index) "txt"

/-- The chunk record key computed inside `process_audio_chunk`.
`chunk_length_ms` is a parameter of `process_audio_chunk` (line 202) but the
path expression on line 217 does not use it; the signature is kept to state
chunk-length (in)dependence of the key. -/
def chunk_key_for_run (chunk_length_ms : Nat) (output_dir base_name : String)
    (chunk_index : Nat) : String :=
  chunk_transcript_path output_dir base_name chunk_index

/-- The audio slices produced across the chunk loop iterations: chunk `i` is
`audio[i*L : i*L + L]` (lines 205-207), with pydub clamping both slice bounds
to the audio duration. -/
def segments (audioLen chunk_length_ms : Nat) : List (Nat × Nat) :=
  (List.range (ceilDiv audioLen chunk_length_ms)).map
    (fun i => (min (i * chunk_length_ms) audioLen,
               min (i * chunk_length_ms + chunk_length_ms) audioLen))

/-- `process_audio_chunk` (lines 202-229): slice `audio[start:end]`, export,
transcribe, write the chunk record.  `none` models a raised
`TranscriptionError`, in which case no record is written. -/
def process_audio_chunk (audioLen : Nat) (chunk_index chunk_length_ms : Nat)
    (backend : Nat → Nat → Option String) (store : List (Nat × String)) :
    Option (List (Nat × String)) :=
  let start_time := chunk_index * chunk_length_ms
  let end_time := start_time + chunk_length_ms
  match backend (min start_time audioLen) (min end_time audioLen) with
  | none => none
  | some t => some (writeChunk store chunk_index t)

structure ChunksResult where
  store : List (Nat × String)
  calls : List Nat
  err : Option Nat
  deriving Repr

/-- The loop `for i in range(start_chunk, chunks)` (lines 195-196), with
`fuel` remaining iterations starting at index `i`.  `calls` collects the
indices on which the backend was invoked; `err` records the index whose
transcription raised, aborting the loop. -/
def run_chunks (audioLen chunk_length_ms : Nat) (backend : Nat → Nat → Option String) :
    Nat → Nat → List (Nat × String) → ChunksResult
  | 0, _, store => ⟨store, [], none⟩
  | fuel + 1, i, store =>
    match process_audio_chunk audioLen i chunk_length_ms backend store with
    | none => ⟨store, [i], some i⟩
    | some store' =>
      let r := run_chunks audioLen chunk_length_ms backend fuel (i + 1) store'
      ⟨r.store, i :: r.calls, r.err⟩

/-- Insert a record into a list sorted by record file name. -/
def insertRec (output_dir base_name : String) (x : Nat × String) :
    List (Nat × String) → List (Nat × String)
  | [] => [x]
  | y :: ys =>
    if strLt (chunk_transcript_path output_dir base_name x.1)
        (chunk_transcript_path output_dir base_name y.1) then
      x :: y :: ys
    else
      y :: insertRec output_dir base_name x ys

/-- `sorted(glob.glob(os.path.join(output_dir, f'{base_name}_chunk_*.txt')))`
(lines 192 and 233): the chunk records ordered by their file names
(lexicographic string order, as Python `sorted` on paths). -/
def sortRecs (output_dir base_name : String) : List (Nat × String) → List (Nat × String)
  | [] => []
  | x :: xs => insertRec output_dir base_name x (sortRecs output_dir base_name xs)

/-- `start_chunk = len(existing_chunks)` (lines 192-193): the number of chunk
transcript files currently on disk. -/
def start_chunk (output_dir base_name : String) (store : List (Nat × String)) : Nat :=
  (sortRecs output_dir base_name store).length

/-- `combine_transcripts` (lines 231-245), the text written to the final
transcript file: the chunk records are read in sorted file-name order and
joined with `'\n'.join(...)`. -/
def combine_text (output_dir base_name : String) (store : List (Nat × String)) : String :=
  String.intercalate "\n" ((sortRecs output_dir base_name store).map Prod.snd)

structure FS where
  chunks : List (Nat × String)
  final : Option String
  deriving Repr

structure RunResult where
  fs : FS
  calls : List Nat
  ret : Except Nat String
  deriving Repr

/-- `mp3_to_transcript` (lines 164-200) with the file system, the backend and
the interactive prompt made explicit.  `audioLen` is `len(audio)` in ms.
If the final transcript file exists and the user answers yes, the existing
file path is returned untouched (lines 177-180).  Otherwise all chunks from
`start_chunk` on are processed and `combine_transcripts` joins every chunk
record, deletes them, and writes the final file (unconditionally).  A raised
transcription error at chunk `e` aborts the run as `.error e`, leaving the
chunk records written so far and not writing the final file. -/
def mp3_to_transcript (audioLen chunk_length_ms : Nat) (base_name : String)
    (backend : Nat → Nat → Option String) (fs : FS) (userYes : Bool) : RunResult :=
  let output_dir := base_name
  let final_transcript_file := get_output_file_path output_dir base_name "txt"
  if fs.final.isSome && userYes then
    ⟨fs, [], .ok final_transcript_file⟩
  else
    let chunks := ceilDiv audioLen chunk_length_ms
    let start := start_chunk output_dir base_name fs.chunks
    let r := run_chunks audioLen chunk_length_ms backend (chunks - start) start fs.chunks
    match r.err with
    | some e => ⟨⟨r.store, fs.final⟩, r.calls, .error e⟩
    | none =>
      let text := combine_text output_dir base_name r.store
      ⟨⟨[], some text⟩, r.calls, .ok final_transcript_file⟩

/-- `main`, action `a2t` (lines 288-289):
`mp3_to_transcript(args.source, args.base_name, whisper_model=args.whisper)`.
`--force-transcribe` is parsed (line 278) into `force_transcribe` but `main`
never reads it, so it is an argument this model receives and, like the
source, does not use. -/
def main_a2t (audioLen chunk_length_ms : Nat) (base_name : String)
    (backend : Nat → Nat → Option String) (force_transcribe : Bool) (fs : FS)
    (userYes : Bool) : RunResult :=
  mp3_to_transcript audioLen chunk_length_ms base_name backend fs userYes

/-- `whisper.load_model` calls performed by a single `Transcriber.transcribe`
call: the local path `_transcribe_with_whisper` calls it exactly once
(line 146); the OpenAI path never does. -/
def transcribe_load_calls (whisper_model : Option String) : Nat :=
  match whisper_model with
  | some _ => 1
  | none => 0

/-- Total `whisper.load_model` calls during a run: one per backend
invocation when a local model is selected (each `process_audio_chunk` calls
`Transcriber.transcribe` afresh, line 221). -/
def run_load_calls (whisper_model : Option String) (r : RunResult) : Nat :=
  r.calls.length * transcribe_load_calls whisper_model

end TU

structure GenResult where
  transcript : String
  store : List (Nat × String)
  calls : List Nat
  err : Option Nat
  deriving Repr

/-- The shared per-chunk loop of `YouTubeTranscript.get_transcript`
(yt_transcript.py lines 32-45) and `AudioTranscript._generate_transcript`
(youtube_audio_transcript.py lines 64-78): for each chunk, if its transcript
record exists it is read, otherwise the chunk is exported and transcribed and
the record written; the texts are accumulated by string concatenation.
`i` is the running `enumerate` counter; `err` models a raised transcription
error, which aborts the loop without writing that record. -/
def transcribe_chunk_loop (backend : Nat → Nat → Option String) :
    Nat → List (Nat × Nat) → List (Nat × String) → GenResult
  | _, [], store => ⟨"", store, [], none⟩
  | i, seg :: rest, store =>
    match readChunk store i with
    | some t =>
      let r := transcribe_chunk_loop backend (i + 1) rest store
      ⟨t ++ r.transcript, r.store, r.calls, r.err⟩
    | none =>
      match backend seg.1 seg.2 with
      | none => ⟨"", store, [i], some i⟩
      | some t =>
        let r := transcribe_chunk_loop backend (i + 1) rest (writeChunk store i t)
        ⟨t ++ r.transcript, r.store, i :: r.calls, r.err⟩

namespace YT

/-! ### yt_transcript.py -/

/-- `_get_chunks_by_seconds` (lines 72-78):
`[full_data[i:i+chunk_size] for i in range(0, len(full_data), chunk_size)]`
with `chunk_size = chunk_second * 1000`; pydub clamps the slice end. -/
def get_chunks_by_seconds (audioLen chunk_second : Nat) : List (Nat × Nat) :=
  let chunk_size := chunk_second * 1000
  (List.range (ceilDiv audioLen chunk_size)).map
    (fun k => (k * chunk_size, min (k * chunk_size + chunk_size) audioLen))

structure YTResult where
  ret : Except Nat String
  store : List (Nat × String)
  calls : List Nat
  final : Option String
  deriving Repr

/-- `YouTubeTranscript.get_transcript` (lines 28-50): run the per-chunk loop,
then write the final transcript file only when the accumulated transcript is
non-empty (`if transcript:`); the transcript string is returned either way.
`final` is the file this call writes (`none` = nothing written); the chunk
records are never cleaned here. -/
def get_transcript (audioLen chunk_second : Nat) (backend : Nat → Nat → Option String)
    (store : List (Nat × String)) : YTResult :=
  let chunks := get_chunks_by_seconds audioLen chunk_second
  let g := transcribe_chunk_loop backend 0 chunks store
  match g.err with
  | some e => ⟨.error e, g.store, g.calls, none⟩
  | none =>
    if g.transcript == "" then
      ⟨.ok g.transcript, g.store, g.calls, none⟩
    else
      ⟨.ok g.transcript, g.store, g.calls, some g.transcript⟩

end YT

namespace AT

/-! ### youtube_audio_transcript.py -/

/-- `_split_audio_into_chunks` (lines 56-62): identical slicing to
`YT.get_chunks_by_seconds`, `chunk_size = chunk_duration_in_sec * 1000`. -/
def split_audio_into_chunks (audioLen chunk_duration_in_sec : Nat) : List (Nat × Nat) :=
  let chunk_size := chunk_duration_in_sec * 1000
  (List.range (ceilDiv audioLen chunk_size)).map
    (fun k => (k * chunk_size, min (k * chunk_size + chunk_size) audioLen))

structure ATResult where
  ret : Except Nat String
  store : List (Nat × String)
  calls : List Nat
  final : Option String
  cleaned : Bool
  deriving Repr

/-- `AudioTranscript.get_transcript` (lines 27-46): if the final transcript
file already exists its contents are returned immediately (lines 28-29, no
force flag exists); otherwise the audio is chunked, `_generate_transcript`
(the shared loop) runs, and only when the result is non-empty is the final
file written and, when `no_clean_up` is false, the chunk directory removed
(`_clean`, modelled by emptying the store and setting `cleaned`). -/
def get_transcript (finalPre : Option String) (audioLen chunk_duration_in_sec : Nat)
    (backend : Nat → Nat → Option String) (store : List (Nat × String))
    (no_clean_up : Bool) : ATResult :=
  match finalPre with
  | some t => ⟨.ok t, store, [], some t, false⟩
  | none =>
    let chunks := split_audio_into_chunks audioLen chunk_duration_in_sec
    let g := transcribe_chunk_loop backend 0 chunks store
    match g.err with
    | some e => ⟨.error e, g.store, g.calls, none, false⟩
    | none =>
      if g.transcript == "" then
        ⟨.ok g.transcript, g.store, g.calls, none, false⟩
      else if no_clean_up then
        ⟨.ok g.transcript, g.store, g.calls, some g.transcript, false⟩
      else
        ⟨.ok g.transcript, [], g.calls, some g.transcript, true⟩

end AT

/-! ## Helper lemmas about the chunk store -/

lemma readChunk_nil (i : Nat) : readChunk [] i = none := rfl

lemma readChunk_cons_self (p : Nat × String) (ps : List (Nat × String)) (j : Nat)
    (h : p.1 = j) : readChunk (p :: ps) j = some p.2 := by
  have hb : (p.1 == j) = true := by simp [h]
  simp only [readChunk, List.find?, hb]
  rfl

lemma readChunk_cons_ne (p : Nat × String) (ps : List (Nat × String)) (j : Nat)
    (h : p.1 ≠ j) : readChunk (p :: ps) j = readChunk ps j := by
  have hb : (p.1 == j) = false := by simp [h]
  simp only [readChunk, List.find?, hb]

lemma readChunk_eraseChunk_ne (s : List (Nat × String)) (i j : Nat) (h : j ≠ i) :
    readChunk (eraseChunk i s) j = readChunk s j := by
  induction s with
  | nil => rfl
  | cons p ps ih =>
    by_cases hpi : p.1 = i
    · have hb : (p.1 == i) = true := by simp [hpi]
      have hpj : p.1 ≠ j := by omega
      rw [show eraseChunk i (p :: ps) = eraseChunk i ps by simp [eraseChunk, hb]]
      rw [readChunk_cons_ne p ps j hpj]
      exact ih
    · have hb : (p.1 == i) = false := by simp [hpi]
      rw [show eraseChunk i (p :: ps) = p :: eraseChunk i ps by simp [eraseChunk, hb]]
      by_cases hpj : p.1 = j
      · rw [readChunk_cons_self p (eraseChunk i ps) j hpj, readChunk_cons_self p ps j hpj]
      · rw [readChunk_cons_ne p (eraseChunk i ps) j hpj, readChunk_cons_ne p ps j hpj]
        exact ih

lemma readChunk_writeChunk_self (s : List (Nat × String)) (i : Nat) (t : String) :
    readChunk (writeChunk s i t) i = some t := by
  simp [writeChunk, readChunk, List.find?]

lemma readChunk_writeChunk_ne (s : List (Nat × String)) (i j : Nat) (t : String)
    (h : j ≠ i) : readChunk (writeChunk s i t) j = readChunk s j := by
  rw [show writeChunk s i t = (i, t) :: eraseChunk i s from rfl]
  rw [readChunk_cons_ne (i, t) (eraseChunk i s) j (by omega)]
  exact readChunk_eraseChunk_ne s i j h

lemma readChunk_none_of_keys_lt (s : List (Nat × String)) (i j : Nat)
    (hs : ∀ p ∈ s, p.1 < i) (hj : i ≤ j) : readChunk s j = none := by
  induction s with
  | nil => rfl
  | cons p ps ih =>
    have hp : p.1 < i := hs p (List.mem_cons_self p ps)
    rw [readChunk_cons_ne p ps j (by omega)]
    exact ih (fun q hq => hs q (List.mem_cons_of_mem p hq))

lemma mem_eraseChunk (s : List (Nat × String)) (i : Nat) :
    ∀ p ∈ eraseChunk i s, p ∈ s := by
  induction s with
  | nil => intro p hp; simp [eraseChunk] at hp
  | cons q qs ih =>
    intro p hp
    by_cases hq : q.1 = i
    · have hb : (q.1 == i) = true := by simp [hq]
      rw [show eraseChunk i (q :: qs) = eraseChunk i qs by simp [eraseChunk, hb]] at hp
      exact List.mem_cons_of_mem q (ih p hp)
    · have hb : (q.1 == i) = false := by simp [hq]
      rw [show eraseChunk i (q :: qs) = q :: eraseChunk i qs by simp [eraseChunk, hb]] at hp
      rcases List.mem_cons.mp hp with h | h
      · rw [h]; exact List.mem_cons_self q qs
      · exact List.mem_cons_of_mem q (ih p h)

lemma writeChunk_keys (s : List (Nat × String)) (i : Nat) (t : String) :
    ∀ p ∈ writeChunk s i t, p.1 = i ∨ p ∈ s := by
  intro p hp
  rcases List.mem_cons.mp hp with h | h
  · left
    rw [h]
  · right
    exact mem_eraseChunk s i p h

lemma eraseChunk_of_keys_ne (s : List (Nat × String)) (i : Nat)
    (hs : ∀ p ∈ s, p.1 ≠ i) : eraseChunk i s = s := by
  induction s with
  | nil => rfl
  | cons p ps ih =>
    have hp : p.1 ≠ i := hs p (List.mem_cons_self p ps)
    have hb : (p.1 == i) = false := by simp [hp]
    rw [show eraseChunk i (p :: ps) = p :: eraseChunk i ps by simp [eraseChunk, hb]]
    rw [ih (fun q hq => hs q (List.mem_cons_of_mem p hq))]

lemma writeChunk_length_fresh (s : List (Nat × String)) (i : Nat) (t : String)
    (hs : ∀ p ∈ s, p.1 ≠ i) : (writeChunk s i t).length = s.length + 1 := by
  simp [writeChunk, eraseChunk_of_keys_ne s i hs]

lemma contigStore_keys_lt (g : Nat → String) (m : Nat) :
    ∀ p ∈ contigStore g m, p.1 < m := by
  induction m with
  | zero => intro p hp; simp [contigStore] at hp
  | succ k ih =>
    intro p hp
    simp only [contigStore, List.mem_cons] at hp
    rcases hp with h | h
    · rw [h]
      omega
    · have := ih p h
      omega

lemma readChunk_contigStore (g : Nat → String) (m j : Nat) :
    readChunk (contigStore g m) j = if j < m then some (g j) else none := by
  induction m with
  | zero => simp [contigStore, readChunk]
  | succ k ih =>
    by_cases hjk : j = k
    · subst hjk
      simp [contigStore, readChunk, List.find?]
    · have : (k == j) = false := by
        simp
        omega
      simp only [contigStore, readChunk, List.find?, this]
      rw [show ((contigStore g k).find? (fun p => p.1 == j)).map Prod.snd =
        readChunk (contigStore g k) j from rfl, ih]
      by_cases hj : j < k
      · simp [hj]
        omega
      · have h1 : ¬ j < k := hj
        have h2 : ¬ j < k + 1 := by omega
        simp [h1, h2]

lemma contigStore_length (g : Nat → String) (m : Nat) :
    (contigStore g m).length = m := by
  induction m with
  | zero => rfl
  | succ k ih => simp [contigStore, ih]

/-! ## Helper lemmas about sorting and the resume point -/

lemma insertRec_length (d b : String) (x : Nat × String) (l : List (Nat × String)) :
    (TU.insertRec d b x l).length = l.length + 1 := by
  induction l with
  | nil => rfl
  | cons y ys ih =>
    simp only [TU.insertRec]
    by_cases h : strLt (TU.chunk_transcript_path d b x.1) (TU.chunk_transcript_path d b y.1) = true
    · simp [h]
    · simp only [Bool.not_eq_true] at h
      simp [h, ih]

lemma sortRecs_length (d b : String) (l : List (Nat × String)) :
    (TU.sortRecs d b l).length = l.length := by
  induction l with
  | nil => rfl
  | cons x xs ih => simp [TU.sortRecs, insertRec_length, ih]

/-- The resume point of `mp3_to_transcript` is the number of cached chunk
records, whatever their indices. -/
lemma start_chunk_eq_length (d b : String) (s : List (Nat × String)) :
    TU.start_chunk d b s = s.length :=
  sortRecs_length d b s

/-! ## Lemmas about the transcript_utility chunk loop -/

lemma run_chunks_succ_none (alen L : Nat) (B : Nat → Nat → Option String)
    (fuel i : Nat) (s : List (Nat × String))
    (h : B (min (i * L) alen) (min (i * L + L) alen) = none) :
    TU.run_chunks alen L B (fuel + 1) i s = ⟨s, [i], some i⟩ := by
  simp [TU.run_chunks, TU.process_audio_chunk, h]

lemma run_chunks_succ_some (alen L : Nat) (B : Nat → Nat → Option String)
    (fuel i : Nat) (s : List (Nat × String)) (t : String)
    (h : B (min (i * L) alen) (min (i * L + L) alen) = some t) :
    TU.run_chunks alen L B (fuel + 1) i s =
      ⟨(TU.run_chunks alen L B fuel (i + 1) (writeChunk s i t)).store,
       i :: (TU.run_chunks alen L B fuel (i + 1) (writeChunk s i t)).calls,
       (TU.run_chunks alen L B fuel (i + 1) (writeChunk s i t)).err⟩ := by
  simp [TU.run_chunks, TU.process_audio_chunk, h]

/-- Characterization of an error-free pass over chunks `i .. i+fuel-1` when
the backend succeeds on each of them. -/
lemma run_chunks_ok (alen L : Nat) (B : Nat → Nat → Option String) (f : Nat → String) :
    ∀ (fuel i : Nat) (s : List (Nat × String)),
      (∀ p ∈ s, p.1 < i) →
      (∀ j, i ≤ j → j < i + fuel →
        B (min (j * L) alen) (min (j * L + L) alen) = some (f j)) →
      (TU.run_chunks alen L B fuel i s).err = none ∧
      (TU.run_chunks alen L B fuel i s).calls = List.range' i fuel ∧
      (TU.run_chunks alen L B fuel i s).store.length = s.length + fuel ∧
      (∀ j, readChunk (TU.run_chunks alen L B fuel i s).store j =
        if i ≤ j ∧ j < i + fuel then some (f j) else readChunk s j) := by
  intro fuel
  induction fuel with
  | zero =>
    intro i s hfresh hB
    refine ⟨rfl, rfl, rfl, fun j => ?_⟩
    have hj : ¬ (i ≤ j ∧ j < i + 0) := by omega
    rw [if_neg hj]
    rfl
  | succ k ih =>
    intro i s hfresh hB
    have hBi := hB i (Nat.le_refl i) (by omega)
    rw [run_chunks_succ_some alen L B k i s (f i) hBi]
    have hfreshNe : ∀ p ∈ s, p.1 ≠ i := fun p hp => by have := hfresh p hp; omega
    have hfresh' : ∀ p ∈ writeChunk s i (f i), p.1 < i + 1 := by
      intro p hp
      rcases writeChunk_keys s i (f i) p hp with h | h
      · omega
      · have := hfresh p h; omega
    have hB' : ∀ j, i + 1 ≤ j → j < (i + 1) + k →
        B (min (j * L) alen) (min (j * L + L) alen) = some (f j) :=
      fun j h1 h2 => hB j (by omega) (by omega)
    obtain ⟨e1, c1, l1, r1⟩ := ih (i + 1) (writeChunk s i (f i)) hfresh' hB'
    refine ⟨e1, ?_, ?_, fun j => ?_⟩
    · rw [c1, List.range'_succ]
    · rw [l1, writeChunk_length_fresh s i (f i) hfreshNe]
      omega
    · rw [r1 j]
      by_cases h1 : i + 1 ≤ j ∧ j < i + 1 + k
      · have h2 : i ≤ j ∧ j < i + (k + 1) := by omega
        rw [if_pos h1, if_pos h2]
      · rw [if_neg h1]
        by_cases h2 : j = i
        · subst h2
          rw [readChunk_writeChunk_self]
          have h3 : j ≤ j ∧ j < j + (k + 1) := by omega
          rw [if_pos h3]
        · rw [readChunk_writeChunk_ne s i j (f i) h2]
          have h3 : ¬ (i ≤ j ∧ j < i + (k + 1)) := by omega
          rw [if_neg h3]

/-- Characterization of a failing pass: the backend succeeds on chunks
`i .. e-1` and raises at chunk `e`.  The loop stops at `e`, leaving the
records written so far and every record below `i` untouched. -/
lemma run_chunks_fail (alen L : Nat) (B : Nat → Nat → Option String)
    (f : Nat → String) (e : Nat) :
    ∀ (fuel i : Nat) (s : List (Nat × String)),
      (∀ p ∈ s, p.1 < i) → i ≤ e → e < i + fuel →
      (∀ j, i ≤ j → j < e →
        B (min (j * L) alen) (min (j * L + L) alen) = some (f j)) →
      B (min (e * L) alen) (min (e * L + L) alen) = none →
      (TU.run_chunks alen L B fuel i s).err = some e ∧
      (TU.run_chunks alen L B fuel i s).calls = List.range' i (e - i + 1) ∧
      (TU.run_chunks alen L B fuel i s).store.length = s.length + (e - i) ∧
      (∀ j, readChunk (TU.run_chunks alen L B fuel i s).store j =
        if i ≤ j ∧ j < e then some (f j) else readChunk s j) := by
  intro fuel
  induction fuel with
  | zero =>
    intro i s hfresh hie hef hB hBe
    omega
  | succ k ih =>
    intro i s hfresh hie hef hB hBe
    by_cases hi : i = e
    · subst hi
      rw [run_chunks_succ_none alen L B k i s hBe]
      refine ⟨rfl, ?_, by simp, fun j => ?_⟩
      · have : i - i + 1 = 1 := by omega
        rw [this]
        rfl
      · have hj : ¬ (i ≤ j ∧ j < i) := by omega
        rw [if_neg hj]
    · have hBi := hB i (Nat.le_refl i) (by omega)
      rw [run_chunks_succ_some alen L B k i s (f i) hBi]
      have hfreshNe : ∀ p ∈ s, p.1 ≠ i := fun p hp => by have := hfresh p hp; omega
      have hfresh' : ∀ p ∈ writeChunk s i (f i), p.1 < i + 1 := by
        intro p hp
        rcases writeChunk_keys s i (f i) p hp with h | h
        · omega
        · have := hfresh p h; omega
      obtain ⟨e1, c1, l1, r1⟩ := ih (i + 1) (writeChunk s i (f i)) hfresh'
        (by omega) (by omega) (fun j h1 h2 => hB j (by omega) h2) hBe
      refine ⟨e1, ?_, ?_, fun j => ?_⟩
      · have h5 : List.range' i (e - i + 1) = i :: List.range' (i + 1) (e - (i + 1) + 1) := by
          have h4 : e - i + 1 = (e - (i + 1) + 1) + 1 := by omega
          rw [h4, List.range'_succ]
        rw [c1, h5]
      · rw [l1, writeChunk_length_fresh s i (f i) hfreshNe]
        omega
      · rw [r1 j]
        by_cases h1 : i + 1 ≤ j ∧ j < e
        · have h2 : i ≤ j ∧ j < e := by omega
          rw [if_pos h1, if_pos h2]
        · rw [if_neg h1]
          by_cases h2 : j = i
          · subst h2
            rw [readChunk_writeChunk_self]
            have h3 : j ≤ j ∧ j < e := by omega
            rw [if_pos h3]
          · rw [readChunk_writeChunk_ne s i j (f i) h2]
            have h3 : ¬ (i ≤ j ∧ j < e) := by omega
            rw [if_neg h3]

/-- An error-free pass of length `a + b` is the pass of length `a` followed
by the pass of length `b` from the intermediate store. -/
lemma run_chunks_split (alen L : Nat) (B : Nat → Nat → Option String) :
    ∀ (a b i : Nat) (s : List (Nat × String)),
      (TU.run_chunks alen L B a i s).err = none →
      TU.run_chunks alen L B (a + b) i s =
        ⟨(TU.run_chunks alen L B b (i + a) (TU.run_chunks alen L B a i s).store).store,
         (TU.run_chunks alen L B a i s).calls ++
           (TU.run_chunks alen L B b (i + a) (TU.run_chunks alen L B a i s).store).calls,
         (TU.run_chunks alen L B b (i + a) (TU.run_chunks alen L B a i s).store).err⟩ := by
  intro a
  induction a with
  | zero =>
    intro b i s _
    rw [Nat.zero_add, Nat.add_zero]
    rfl
  | succ k ih =>
    intro b i s hErr
    cases hB : B (min (i * L) alen) (min (i * L + L) alen) with
    | none =>
      rw [run_chunks_succ_none alen L B k i s hB] at hErr
      exact absurd hErr (by simp)
    | some t =>
      have hstep : (k + 1) + b = (k + b) + 1 := by omega
      rw [hstep, run_chunks_succ_some alen L B (k + b) i s t hB,
        run_chunks_succ_some alen L B k i s t hB]
      rw [run_chunks_succ_some alen L B k i s t hB] at hErr
      have hErr' : (TU.run_chunks alen L B k (i + 1) (writeChunk s i t)).err = none := hErr
      rw [ih b (i + 1) (writeChunk s i t) hErr']
      have hidx : i + 1 + k = i + (k + 1) := by omega
      rw [hidx]
      rfl

/-- Every record after a pass either was already present or was written at
one of the pass's indices. -/
lemma run_chunks_keys (alen L : Nat) (B : Nat → Nat → Option String) :
    ∀ (fuel i : Nat) (s : List (Nat × String)),
      ∀ p ∈ (TU.run_chunks alen L B fuel i s).store,
        p ∈ s ∨ (i ≤ p.1 ∧ p.1 < i + fuel) := by
  intro fuel
  induction fuel with
  | zero =>
    intro i s p hp
    exact Or.inl hp
  | succ k ih =>
    intro i s p hp
    cases hB : B (min (i * L) alen) (min (i * L + L) alen) with
    | none =>
      rw [run_chunks_succ_none alen L B k i s hB] at hp
      exact Or.inl hp
    | some t =>
      rw [run_chunks_succ_some alen L B k i s t hB] at hp
      rcases ih (i + 1) (writeChunk s i t) p hp with h | h
      · rcases writeChunk_keys s i t p h with h' | h'
        · exact Or.inr ⟨by omega, by omega⟩
        · exact Or.inl h'
      · exact Or.inr ⟨by omega, by omega⟩

/-- Unfolding of `mp3_to_transcript` when no final transcript file exists and
the chunk pass raises no error: all chunk records are combined in sorted
file-name order, written as the final transcript, and deleted. -/
lemma mp3_no_final_ok (alen L : Nat) (base : String) (B : Nat → Nat → Option String)
    (s : List (Nat × String)) (uy : Bool)
    (h : (TU.run_chunks alen L B (ceilDiv alen L - TU.start_chunk base base s)
      (TU.start_chunk base base s) s).err = none) :
    TU.mp3_to_transcript alen L base B ⟨s, none⟩ uy =
      ⟨⟨[], some (TU.combine_text base base
          (TU.run_chunks alen L B (ceilDiv alen L - TU.start_chunk base base s)
            (TU.start_chunk base base s) s).store)⟩,
       (TU.run_chunks alen L B (ceilDiv alen L - TU.start_chunk base base s)
         (TU.start_chunk base base s) s).calls,
       .ok (TU.get_output_file_path base base "txt")⟩ := by
  unfold TU.mp3_to_transcript
  simp only [Option.isSome_none, Bool.false_and, Bool.false_eq_true, if_false]
  rw [h]

/-- Unfolding of `mp3_to_transcript` when no final transcript file exists and
the chunk pass raises at chunk `e`: the exception propagates, the records
written so far stay, the final file is not written. -/
lemma mp3_no_final_err (alen L : Nat) (base : String) (B : Nat → Nat → Option String)
    (s : List (Nat × String)) (uy : Bool) (e : Nat)
    (h : (TU.run_chunks alen L B (ceilDiv alen L - TU.start_chunk base base s)
      (TU.start_chunk base base s) s).err = some e) :
    TU.mp3_to_transcript alen L base B ⟨s, none⟩ uy =
      ⟨⟨(TU.run_chunks alen L B (ceilDiv alen L - TU.start_chunk base base s)
          (TU.start_chunk base base s) s).store, none⟩,
       (TU.run_chunks alen L B (ceilDiv alen L - TU.start_chunk base base s)
         (TU.start_chunk base base s) s).calls,
       .error e⟩ := by
  unfold TU.mp3_to_transcript
  simp only [Option.isSome_none, Bool.false_and, Bool.false_eq_true, if_false]
  rw [h]

/-- Unfolding of `mp3_to_transcript` when the final transcript file exists and
the user answers yes: the existing file is returned untouched and nothing is
transcribed. -/
lemma mp3_final_exists (alen L : Nat) (base : String) (B : Nat → Nat → Option String)
    (s : List (Nat × String)) (t : String) :
    TU.mp3_to_transcript alen L base B ⟨s, some t⟩ true =
      ⟨⟨s, some t⟩, [], .ok (TU.get_output_file_path base base "txt")⟩ := by
  unfold TU.mp3_to_transcript
  simp

/-! ## Lemmas about the shared per-chunk loop -/

lemma loop_cons_hit (B : Nat → Nat → Option String) (i : Nat) (seg : Nat × Nat)
    (rest : List (Nat × Nat)) (s : List (Nat × String)) (t : String)
    (h : readChunk s i = some t) :
    transcribe_chunk_loop B i (seg :: rest) s =
      ⟨t ++ (transcribe_chunk_loop B (i + 1) rest s).transcript,
       (transcribe_chunk_loop B (i + 1) rest s).store,
       (transcribe_chunk_loop B (i + 1) rest s).calls,
       (transcribe_chunk_loop B (i + 1) rest s).err⟩ := by
  simp [transcribe_chunk_loop, h]

lemma loop_cons_miss_some (B : Nat → Nat → Option String) (i : Nat) (seg : Nat × Nat)
    (rest : List (Nat × Nat)) (s : List (Nat × String)) (t : String)
    (h : readChunk s i = none) (hB : B seg.1 seg.2 = some t) :
    transcribe_chunk_loop B i (seg :: rest) s =
      ⟨t ++ (transcribe_chunk_loop B (i + 1) rest (writeChunk s i t)).transcript,
       (transcribe_chunk_loop B (i + 1) rest (writeChunk s i t)).store,
       i :: (transcribe_chunk_loop B (i + 1) rest (writeChunk s i t)).calls,
       (transcribe_chunk_loop B (i + 1) rest (writeChunk s i t)).err⟩ := by
  simp [transcribe_chunk_loop, h, hB]

lemma loop_cons_miss_none (B : Nat → Nat → Option String) (i : Nat) (seg : Nat × Nat)
    (rest : List (Nat × Nat)) (s : List (Nat × String))
    (h : readChunk s i = none) (hB : B seg.1 seg.2 = none) :
    transcribe_chunk_loop B i (seg :: rest) s = ⟨"", s, [i], some i⟩ := by
  simp [transcribe_chunk_loop, h, hB]

/-- Every backend invocation of the loop is at a position at or after the
starting counter whose record was absent in the initial store. -/
lemma loop_calls_mem (B : Nat → Nat → Option String) :
    ∀ (todo : List (Nat × Nat)) (i : Nat) (s : List (Nat × String)) (j : Nat),
      j ∈ (transcribe_chunk_loop B i todo s).calls →
      i ≤ j ∧ readChunk s j = none := by
  intro todo
  induction todo with
  | nil =>
    intro i s j hj
    simp [transcribe_chunk_loop] at hj
  | cons seg rest ih =>
    intro i s j hj
    cases hr : readChunk s i with
    | some t =>
      rw [loop_cons_hit B i seg rest s t hr] at hj
      obtain ⟨h1, h2⟩ := ih (i + 1) s j hj
      exact ⟨by omega, h2⟩
    | none =>
      cases hB : B seg.1 seg.2 with
      | none =>
        rw [loop_cons_miss_none B i seg rest s hr hB] at hj
        have hji : j = i := by simpa using hj
        subst hji
        exact ⟨Nat.le_refl j, hr⟩
      | some t =>
        rw [loop_cons_miss_some B i seg rest s t hr hB] at hj
        rcases List.mem_cons.mp hj with h | h
        · subst h
          exact ⟨Nat.le_refl j, hr⟩
        · obtain ⟨h1, h2⟩ := ih (i + 1) (writeChunk s i t) j h
          have hji : j ≠ i := by omega
          rw [readChunk_writeChunk_ne s i j t hji] at h2
          exact ⟨by omega, h2⟩

/-- When every cached record the loop will consult holds exactly the text the
backend would produce for that chunk, the loop raises no error and its
transcript is the in-order concatenation of the backend texts of all chunks,
cached or not. -/
lemma loop_spec (B : Nat → Nat → Option String) (f : Nat → Nat → String)
    (HB : ∀ a b, B a b = some (f a b)) :
    ∀ (todo : List (Nat × Nat)) (i : Nat) (s : List (Nat × String)),
      (∀ p seg t, todo.get? p = some seg → readChunk s (i + p) = some t →
        t = f seg.1 seg.2) →
      (transcribe_chunk_loop B i todo s).transcript =
        joinAll (todo.map (fun seg => f seg.1 seg.2)) ∧
      (transcribe_chunk_loop B i todo s).err = none := by
  intro todo
  induction todo with
  | nil =>
    intro i s H
    exact ⟨rfl, rfl⟩
  | cons seg rest ih =>
    intro i s H
    have Hrest : ∀ p seg' t, rest.get? p = some seg' →
        readChunk s ((i + 1) + p) = some t → t = f seg'.1 seg'.2 := by
      intro p seg' t h1 h2
      have h3 : (seg :: rest).get? (p + 1) = some seg' := by simpa using h1
      have h4 : readChunk s (i + (p + 1)) = some t := by
        have he : i + (p + 1) = (i + 1) + p := by omega
        rw [he]
        exact h2
      exact H (p + 1) seg' t h3 h4
    cases hr : readChunk s i with
    | some t =>
      have ht : t = f seg.1 seg.2 := H 0 seg t (by simp) (by simpa using hr)
      rw [loop_cons_hit B i seg rest s t hr]
      obtain ⟨h1, h2⟩ := ih (i + 1) s Hrest
      refine ⟨?_, h2⟩
      show t ++ (transcribe_chunk_loop B (i + 1) rest s).transcript = _
      rw [ht, h1]
      rfl
    | none =>
      rw [loop_cons_miss_some B i seg rest s (f seg.1 seg.2) hr (HB seg.1 seg.2)]
      have Hrest' : ∀ p seg' t, rest.get? p = some seg' →
          readChunk (writeChunk s i (f seg.1 seg.2)) ((i + 1) + p) = some t →
          t = f seg'.1 seg'.2 := by
        intro p seg' t h1 h2
        rw [readChunk_writeChunk_ne s i _ _ (by omega)] at h2
        exact Hrest p seg' t h1 h2
      obtain ⟨h1, h2⟩ := ih (i + 1) (writeChunk s i (f seg.1 seg.2)) Hrest'
      refine ⟨?_, h2⟩
      show f seg.1 seg.2 ++ _ = _
      rw [h1]
      rfl

/-- The loop never deletes or overwrites a record that was present when it
started. -/
lemma loop_store_preserve (B : Nat → Nat → Option String) :
    ∀ (todo : List (Nat × Nat)) (i : Nat) (s : List (Nat × String)) (j : Nat)
      (t : String), readChunk s j = some t →
      readChunk (transcribe_chunk_loop B i todo s).store j = some t := by
  intro todo
  induction todo with
  | nil =>
    intro i s j t hj
    exact hj
  | cons seg rest ih =>
    intro i s j t hj
    cases hr : readChunk s i with
    | some u =>
      rw [loop_cons_hit B i seg rest s u hr]
      exact ih (i + 1) s j t hj
    | none =>
      cases hB : B seg.1 seg.2 with
      | none =>
        rw [loop_cons_miss_none B i seg rest s hr hB]
        exact hj
      | some u =>
        rw [loop_cons_miss_some B i seg rest s u hr hB]
        have hji : j ≠ i := by
          intro h
          rw [h, hr] at hj
          exact Option.noConfusion hj
        exact ih (i + 1) (writeChunk s i u) j t
          (by rw [readChunk_writeChunk_ne s i j u hji]; exact hj)

/-- Records strictly below the starting counter are untouched by the loop. -/
lemma loop_below (B : Nat → Nat → Option String) :
    ∀ (todo : List (Nat × Nat)) (i : Nat) (s : List (Nat × String)) (j : Nat),
      j < i →
      readChunk (transcribe_chunk_loop B i todo s).store j = readChunk s j := by
  intro todo
  induction todo with
  | nil =>
    intro i s j hj
    rfl
  | cons seg rest ih =>
    intro i s j hj
    cases hr : readChunk s i with
    | some u =>
      rw [loop_cons_hit B i seg rest s u hr]
      exact ih (i + 1) s j (by omega)
    | none =>
      cases hB : B seg.1 seg.2 with
      | none =>
        rw [loop_cons_miss_none B i seg rest s hr hB]
      | some u =>
        rw [loop_cons_miss_some B i seg rest s u hr hB]
        rw [ih (i + 1) (writeChunk s i u) j (by omega)]
        exact readChunk_writeChunk_ne s i j u (by omega)

/-- Running the loop from a store holding no record at or above the starting
counter (in particular the empty store): afterwards the record at position
`j ≥ i` holds exactly the backend text of chunk `j - i`, and nothing beyond
the chunk list is present. -/
lemma loop_read_fresh (B : Nat → Nat → Option String) (f : Nat → Nat → String)
    (HB : ∀ a b, B a b = some (f a b)) :
    ∀ (todo : List (Nat × Nat)) (i : Nat) (s : List (Nat × String)),
      (∀ p ∈ s, p.1 < i) → ∀ j, i ≤ j →
      readChunk (transcribe_chunk_loop B i todo s).store j =
        (todo.get? (j - i)).map (fun seg => f seg.1 seg.2) := by
  intro todo
  induction todo with
  | nil =>
    intro i s hf j hij
    rw [show (transcribe_chunk_loop B i [] s).store = s from rfl]
    rw [readChunk_none_of_keys_lt s i j hf hij]
    simp
  | cons seg rest ih =>
    intro i s hf j hij
    have hr : readChunk s i = none := readChunk_none_of_keys_lt s i i hf (Nat.le_refl i)
    rw [loop_cons_miss_some B i seg rest s (f seg.1 seg.2) hr (HB seg.1 seg.2)]
    have hf' : ∀ p ∈ writeChunk s i (f seg.1 seg.2), p.1 < i + 1 := by
      intro p hp
      rcases writeChunk_keys s i (f seg.1 seg.2) p hp with h | h
      · omega
      · have := hf p h
        omega
    by_cases hji : j = i
    · subst hji
      rw [loop_below B rest (j + 1) (writeChunk s j (f seg.1 seg.2)) j (by omega)]
      rw [readChunk_writeChunk_self]
      simp
    · have hij' : i + 1 ≤ j := by omega
      rw [ih (i + 1) (writeChunk s i (f seg.1 seg.2)) hf' j hij']
      have he : j - i = (j - (i + 1)) + 1 := by omega
      rw [he]
      rfl

/-! ## Arithmetic helper lemmas -/

lemma lt_ceilDiv_iff (d L i : Nat) (hL : 0 < L) : i < ceilDiv d L ↔ i * L < d := by
  unfold ceilDiv
  rw [Nat.lt_iff_add_one_le, Nat.le_div_iff_mul_le hL, Nat.add_mul, Nat.one_mul]
  omega

lemma ceilDiv_zero_left (m : Nat) : ceilDiv 0 m = 0 := by
  cases m with
  | zero => decide
  | succ k =>
    unfold ceilDiv
    apply Nat.div_eq_of_lt
    omega

/-! ## Sorting lemmas for reassembly order -/

lemma insertRec_of_strLt (d b : String) (x y : Nat × String) (ys : List (Nat × String))
    (h : strLt (TU.chunk_transcript_path d b x.1) (TU.chunk_transcript_path d b y.1) = true) :
    TU.insertRec d b x (y :: ys) = x :: y :: ys := by
  simp [TU.insertRec, h]

/-- Insertion sort leaves a list alone whose record file names are already
strictly increasing. -/
lemma sortRecs_of_pairwise (d b : String) :
    ∀ l : List (Nat × String),
      l.Pairwise (fun p q => strLt (TU.chunk_transcript_path d b p.1)
        (TU.chunk_transcript_path d b q.1) = true) →
      TU.sortRecs d b l = l := by
  intro l
  induction l with
  | nil => intro _; rfl
  | cons x xs ih =>
    intro hp
    obtain ⟨hx, hxs⟩ := List.pairwise_cons.mp hp
    rw [show TU.sortRecs d b (x :: xs) = TU.insertRec d b x (TU.sortRecs d b xs) from rfl,
      ih hxs]
    cases xs with
    | nil => rfl
    | cons y ys => exact insertRec_of_strLt d b x y ys (hx y (List.mem_cons_self y ys))

lemma charListLt_append (p : List Char) :
    ∀ a b, charListLt (p ++ a) (p ++ b) = charListLt a b := by
  induction p with
  | nil =>
    intro a b
    rfl
  | cons c cs ih =>
    intro a b
    have h : ¬ (c.val < c.val) := Nat.lt_irrefl _
    show charListLt (c :: (cs ++ a)) (c :: (cs ++ b)) = _
    rw [show charListLt (c :: (cs ++ a)) (c :: (cs ++ b)) =
      (if c.val < c.val then true
       else if c.val < c.val then false
       else charListLt (cs ++ a) (cs ++ b)) from rfl]
    rw [if_neg h, if_neg h]
    exact ih a b

/-- Comparison of two record file names of the same job reduces to comparing
their index-and-extension suffixes: the directory and base-name parts are a
common prefix. -/
lemma strLt_chunk_transcript_path (d b : String) (i j : Nat)
    (key : charListLt ((Nat.repr i).data ++ (".".data ++ "txt".data))
      ((Nat.repr j).data ++ (".".data ++ "txt".data)) = true) :
    strLt (TU.chunk_transcript_path d b i) (TU.chunk_transcript_path d b j) = true := by
  unfold strLt TU.chunk_transcript_path TU.get_output_file_path
  simp only [String.data_append, List.append_assoc]
  rw [charListLt_append, charListLt_append, charListLt_append, charListLt_append]
  exact key

/-- For single-digit indices, file-name order coincides with index order. -/
lemma strLt_digits :
    ∀ i, i < 10 → ∀ j, j < 10 → i < j →
      charListLt ((Nat.repr i).data ++ (".".data ++ "txt".data))
        ((Nat.repr j).data ++ (".".data ++ "txt".data)) = true := by decide

/-! ## Claim theorems -/

/-- C1 (counterexample): in `mp3_to_transcript` the resume point for the
cached records `{0, 1, 3}` is `3` — the total number of cached records — not
`2`, the count of contiguous cached records starting at index 0.  Running the
pipeline on a four-chunk audio with that cache invokes the backend only on
chunk 3 and produces a final transcript with three entries, never filling the
hole at index 2. -/
theorem claim1_counterexample :
    TU.start_chunk "x" "x" [(0, "a"), (1, "b"), (3, "d")] = 3 ∧
    specContiguousResume [0, 1, 3] = 2 ∧
    ¬ (TU.start_chunk "x" "x" [(0, "a"), (1, "b"), (3, "d")] =
        specContiguousResume [0, 1, 3]) ∧
    (TU.mp3_to_transcript 210000 60000 "x" (fun st _ => some ("T" ++ Nat.repr st))
      ⟨[(0, "a"), (1, "b"), (3, "d")], none⟩ true).calls = [3] ∧
    (TU.mp3_to_transcript 210000 60000 "x" (fun st _ => some ("T" ++ Nat.repr st))
      ⟨[(0, "a"), (1, "b"), (3, "d")], none⟩ true).fs.final = some "a\nb\nT180000" :=
  ⟨by decide, by decide, by decide, by decide, by decide⟩

/-- C1 (amended): the resume point computed by `mp3_to_transcript` is the
total count of cached chunk records (so a gap makes it skip past the hole);
the `yt_transcript` variant instead checks each chunk individually, so with
records cached for `{0, 1, 3}` of four chunks it transcribes exactly the
missing chunk 2 and returns all four texts in order. -/
theorem claim1_amended :
    (∀ (output_dir base_name : String) (store : List (Nat × String)),
      TU.start_chunk output_dir base_name store = store.length) ∧
    (YT.get_transcript 210000 60 (fun st _ => some ("T" ++ Nat.repr st))
      [(0, "a"), (1, "b"), (3, "d")]).calls = [2] ∧
    (YT.get_transcript 210000 60 (fun st _ => some ("T" ++ Nat.repr st))
      [(0, "a"), (1, "b"), (3, "d")]).ret = .ok "abT120000d" :=
  ⟨start_chunk_eq_length, by decide, rfl⟩

/-- C4 (counterexample): with records for indices 0..10, `combine_transcripts`
joins the record of chunk 10 before that of chunk 2 (lexicographic file-name
order), so its output differs from the newline-join in segment-index order. -/
theorem claim4_counterexample :
    ¬ (TU.combine_text "x" "x" ((List.range 11).map (fun i => (i, Nat.repr i))) =
      String.intercalate "\n" ((List.range 11).map Nat.repr)) := by decide

/-- C4 (amended): `combine_transcripts` reads the chunk records in
lexicographic file-name order and joins them with a single newline; for at
most ten chunks (single-digit indices) that order coincides with
segment-index order, and the output is a pure function of the records. -/
theorem claim4_amended (d b : String) (f : Nat → String) (n : Nat) (hn : n ≤ 10) :
    TU.combine_text d b ((List.range n).map (fun i => (i, f i))) =
      String.intercalate "\n" ((List.range n).map f) := by
  have hpair : ((List.range n).map (fun i => (i, f i))).Pairwise
      (fun p q => strLt (TU.chunk_transcript_path d b p.1)
        (TU.chunk_transcript_path d b q.1) = true) := by
    rw [List.pairwise_map]
    refine List.Pairwise.imp_of_mem ?_ (List.pairwise_lt_range n)
    intro a c ha hc hac
    have ha' : a < n := List.mem_range.mp ha
    have hc' : c < n := List.mem_range.mp hc
    exact strLt_chunk_transcript_path d b a c
      (strLt_digits a (by omega) c (by omega) hac)
  unfold TU.combine_text
  rw [sortRecs_of_pairwise d b _ hpair, List.map_map]
  rfl

theorem claim4_witness :
    (3 ≤ 10) ∧
    TU.combine_text "x" "x" ((List.range 3).map (fun i => (i, Nat.repr i))) =
      String.intercalate "\n" ((List.range 3).map Nat.repr) :=
  ⟨by decide, claim4_amended "x" "x" Nat.repr 3 (by decide)⟩

/-- C5 (code bug): `--force-transcribe` is parsed by `main` but never passed
to `mp3_to_transcript`, so the run result is independent of the flag; with an
existing final transcript (and the user keeping it) nothing is transcribed
even when forcing was requested. -/
theorem claim5_force_flag_ignored :
    (∀ (alen L : Nat) (base : String) (B : Nat → Nat → Option String)
      (ft₁ ft₂ : Bool) (fs : TU.FS) (uy : Bool),
      TU.main_a2t alen L base B ft₁ fs uy = TU.main_a2t alen L base B ft₂ fs uy) ∧
    (∀ (alen L : Nat) (base : String) (B : Nat → Nat → Option String)
      (t : String) (c : List (Nat × String)),
      (TU.main_a2t alen L base B true ⟨c, some t⟩ true).calls = [] ∧
      (TU.main_a2t alen L base B true ⟨c, some t⟩ true).fs.chunks = c ∧
      (TU.main_a2t alen L base B true ⟨c, some t⟩ true).fs.final = some t) := by
  constructor
  · intro alen L base B ft₁ ft₂ fs uy
    rfl
  · intro alen L base B t c
    rw [show TU.main_a2t alen L base B true ⟨c, some t⟩ true =
      TU.mp3_to_transcript alen L base B ⟨c, some t⟩ true from rfl,
      mp3_final_exists alen L base B c t]
    exact ⟨rfl, rfl, rfl⟩

/-- C6 (counterexample): the chunk record key does not involve the chunk
length.  A first run with chunk length 1000 ms over a 2000 ms audio writes
the record for chunk 0 (covering 0-1000 ms) and then fails; a re-run with
chunk length 500 ms finds that record, resumes at chunk 1, and attributes the
old text to the new segment 0 (covering 0-500 ms) in the final transcript —
the cached key is *not* invalidated. -/
theorem claim6_counterexample :
    (TU.mp3_to_transcript 2000 1000 "x"
      (fun st _ => if st == 0 then some "old" else none) ⟨[], none⟩ true).fs.chunks =
      [(0, "old")] ∧
    (TU.mp3_to_transcript 2000 1000 "x"
      (fun st _ => if st == 0 then some "old" else none) ⟨[], none⟩ true).fs.final =
      none ∧
    (TU.mp3_to_transcript 2000 500 "x" (fun st _ => some ("N" ++ Nat.repr st))
      ⟨[(0, "old")], none⟩ true).calls = [1, 2, 3] ∧
    (TU.mp3_to_transcript 2000 500 "x" (fun st _ => some ("N" ++ Nat.repr st))
      ⟨[(0, "old")], none⟩ true).fs.final = some "old\nN500\nN1000\nN1500" :=
  ⟨by decide, by decide, by decide, by decide⟩

/-- C6 (amended): the chunk record key is a deterministic function of the
output directory, the base name and the segment index alone — stable across
restarts for the same `base_name`, but *independent* of the chunk length, so
changing the chunk length does not invalidate previously cached keys, and the
resume scan counts whatever records exist regardless of the chunk length that
produced them. -/
theorem claim6_amended :
    (∀ (L L' : Nat) (output_dir base_name : String) (i : Nat),
      TU.chunk_key_for_run L output_dir base_name i =
        TU.chunk_key_for_run L' output_dir base_name i) ∧
    (∀ (output_dir base_name : String) (store : List (Nat × String)),
      TU.start_chunk output_dir base_name store = store.length) :=
  ⟨fun _ _ _ _ _ => rfl, start_chunk_eq_length⟩

/-- C8 (code bug): with a local whisper model selected, a fresh two-chunk run
performs two `whisper.load_model` calls — one per chunk — because
`_transcribe_with_whisper` loads the model on every invocation; the model is
not cached across chunk calls. -/
theorem claim8_model_reloaded_per_chunk :
    TU.run_load_calls (some "base")
      (TU.mp3_to_transcript 120000 60000 "x" (fun _ _ => some "t") ⟨[], none⟩ true) = 2 ∧
    1 < TU.run_load_calls (some "base")
      (TU.mp3_to_transcript 120000 60000 "x" (fun _ _ => some "t") ⟨[], none⟩ true) :=
  ⟨by decide, by decide⟩

/-- C3: for positive chunk length the loop produces exactly
`ceil(duration / chunk_length)` slices; slice `i` spans
`[i*L, min((i+1)*L, d))`; consecutive slices are contiguous; distinct slices
do not overlap; and the slices cover exactly `[0, d)`.  The `yt_transcript`
and `youtube_audio_transcript` chunkers produce the same slices with
`L = chunk_seconds * 1000`. -/
theorem claim3_segmentation :
    (∀ d L, 0 < L →
      (TU.segments d L).length = ceilDiv d L ∧
      (∀ i, i < ceilDiv d L →
        (TU.segments d L).get? i = some (i * L, min ((i + 1) * L) d)) ∧
      (∀ i, i + 1 < ceilDiv d L → min ((i + 1) * L) d = (i + 1) * L) ∧
      (∀ i j, i < j → j < ceilDiv d L → min ((i + 1) * L) d ≤ j * L) ∧
      (∀ x, x < d ↔ ∃ i, i < ceilDiv d L ∧ i * L ≤ x ∧ x < min ((i + 1) * L) d)) ∧
    (∀ alen cs, 0 < cs →
      YT.get_chunks_by_seconds alen cs = TU.segments alen (cs * 1000)) ∧
    (∀ alen cs, 0 < cs →
      AT.split_audio_into_chunks alen cs = TU.segments alen (cs * 1000)) := by
  refine ⟨?_, ?_, ?_⟩
  · intro d L hL
    refine ⟨?_, ?_, ?_, ?_, ?_⟩
    · unfold TU.segments
      rw [List.length_map, List.length_range]
    · intro i hi
      unfold TU.segments
      rw [List.get?_map, List.get?_range hi]
      have h1 : i * L < d := (lt_ceilDiv_iff d L i hL).mp hi
      have h2 : min (i * L) d = i * L := Nat.min_eq_left (Nat.le_of_lt h1)
      have h3 : i * L + L = (i + 1) * L := by ring
      rw [Option.map_some', h2, h3]
    · intro i hi
      have h1 : (i + 1) * L < d := (lt_ceilDiv_iff d L (i + 1) hL).mp hi
      exact Nat.min_eq_left (Nat.le_of_lt h1)
    · intro i j hij hj
      have h1 : (i + 1) * L ≤ j * L := Nat.mul_le_mul_right L (by omega)
      calc min ((i + 1) * L) d ≤ (i + 1) * L := Nat.min_le_left _ _
        _ ≤ j * L := h1
    · intro x
      constructor
      · intro hx
        refine ⟨x / L, ?_, Nat.div_mul_le_self x L, ?_⟩
        · rw [lt_ceilDiv_iff d L (x / L) hL]
          calc x / L * L ≤ x := Nat.div_mul_le_self x L
            _ < d := hx
        · apply lt_min
          · have h1 := Nat.div_add_mod x L
            have h2 : x % L < L := Nat.mod_lt x hL
            have h3 : (x / L + 1) * L = L * (x / L) + L := by ring
            omega
          · exact hx
      · rintro ⟨i, hi, h1, h2⟩
        calc x < min ((i + 1) * L) d := h2
          _ ≤ d := Nat.min_le_right _ _
  · intro alen cs hcs
    simp only [YT.get_chunks_by_seconds, TU.segments]
    apply List.map_congr_left
    intro a ha
    have ha' : a < ceilDiv alen (cs * 1000) := List.mem_range.mp ha
    have h1 : a * (cs * 1000) < alen :=
      (lt_ceilDiv_iff alen (cs * 1000) a (by omega)).mp ha'
    rw [Nat.min_eq_left (Nat.le_of_lt h1)]
  · intro alen cs hcs
    simp only [AT.split_audio_into_chunks, TU.segments]
    apply List.map_congr_left
    intro a ha
    have ha' : a < ceilDiv alen (cs * 1000) := List.mem_range.mp ha
    have h1 : a * (cs * 1000) < alen :=
      (lt_ceilDiv_iff alen (cs * 1000) a (by omega)).mp ha'
    rw [Nat.min_eq_left (Nat.le_of_lt h1)]

theorem claim3_witness :
    ((TU.segments 150000 60000).length = ceilDiv 150000 60000 ∧
     (∀ i, i < ceilDiv 150000 60000 →
       (TU.segments 150000 60000).get? i = some (i * 60000, min ((i + 1) * 60000) 150000)) ∧
     (∀ i, i + 1 < ceilDiv 150000 60000 →
       min ((i + 1) * 60000) 150000 = (i + 1) * 60000) ∧
     (∀ i j, i < j → j < ceilDiv 150000 60000 →
       min ((i + 1) * 60000) 150000 ≤ j * 60000) ∧
     (∀ x, x < 150000 ↔ ∃ i, i < ceilDiv 150000 60000 ∧ i * 60000 ≤ x ∧
       x < min ((i + 1) * 60000) 150000)) ∧
    YT.get_chunks_by_seconds 150000 60 = TU.segments 150000 (60 * 1000) ∧
    AT.split_audio_into_chunks 150000 60 = TU.segments 150000 (60 * 1000) :=
  ⟨claim3_segmentation.1 150000 60000 (by decide),
   claim3_segmentation.2.1 150000 60 (by decide),
   claim3_segmentation.2.2 150000 60 (by decide)⟩

/-- C7 (counterexample): a failing run does not leave every already-written
chunk record unchanged.  With records cached for `{0, 1, 3}` of a five-chunk
audio, the resume point is 3, so the run re-transcribes chunk 3 — overwriting
the cached record `"d"` with `"X"` — and then fails at chunk 4; afterwards
record 3 differs from its pre-run contents (the final file is still never
written). -/
theorem claim7_counterexample :
    (TU.mp3_to_transcript 250000 50000 "x"
      (fun st _ => if st == 150000 then some "X" else none)
      ⟨[(0, "a"), (1, "b"), (3, "d")], none⟩ true).ret = .error 4 ∧
    (TU.mp3_to_transcript 250000 50000 "x"
      (fun st _ => if st == 150000 then some "X" else none)
      ⟨[(0, "a"), (1, "b"), (3, "d")], none⟩ true).fs.final = none ∧
    readChunk [(0, "a"), (1, "b"), (3, "d")] 3 = some "d" ∧
    readChunk (TU.mp3_to_transcript 250000 50000 "x"
      (fun st _ => if st == 150000 then some "X" else none)
      ⟨[(0, "a"), (1, "b"), (3, "d")], none⟩ true).fs.chunks 3 = some "X" ∧
    ¬ (readChunk (TU.mp3_to_transcript 250000 50000 "x"
        (fun st _ => if st == 150000 then some "X" else none)
        ⟨[(0, "a"), (1, "b"), (3, "d")], none⟩ true).fs.chunks 3 =
       readChunk [(0, "a"), (1, "b"), (3, "d")] 3) :=
  ⟨rfl, by decide, by decide, by decide, by decide⟩

/-- C7 (amended): when the cached records form a contiguous prefix
`0 .. m-1` and a run whose backend succeeds on chunks `m .. e-1` raises at
chunk `e`, the run propagates the error, writes no final transcript, leaves
every pre-existing record unchanged, persists the records for the chunks
transcribed before the failure, and a subsequent run's resume point is
exactly `e`. -/
theorem claim7_amended (alen L : Nat) (base : String) (B : Nat → Nat → Option String)
    (f g : Nat → String) (m e : Nat) (uy : Bool)
    (hme : m ≤ e) (hen : e < ceilDiv alen L)
    (hBs : ∀ j, m ≤ j → j < e → B (min (j * L) alen) (min (j * L + L) alen) = some (f j))
    (hBe : B (min (e * L) alen) (min (e * L + L) alen) = none) :
    (TU.mp3_to_transcript alen L base B ⟨contigStore g m, none⟩ uy).ret = .error e ∧
    (TU.mp3_to_transcript alen L base B ⟨contigStore g m, none⟩ uy).fs.final = none ∧
    (∀ j, j < m →
      readChunk (TU.mp3_to_transcript alen L base B ⟨contigStore g m, none⟩ uy).fs.chunks j =
        some (g j)) ∧
    (∀ j, m ≤ j → j < e →
      readChunk (TU.mp3_to_transcript alen L base B ⟨contigStore g m, none⟩ uy).fs.chunks j =
        some (f j)) ∧
    TU.start_chunk base base
      (TU.mp3_to_transcript alen L base B ⟨contigStore g m, none⟩ uy).fs.chunks = e := by
  have hstart : TU.start_chunk base base (contigStore g m) = m := by
    rw [start_chunk_eq_length, contigStore_length]
  obtain ⟨he, hc, hl, hr⟩ := run_chunks_fail alen L B f e (ceilDiv alen L - m) m
    (contigStore g m) (contigStore_keys_lt g m) hme (by omega) hBs hBe
  have hm := mp3_no_final_err alen L base B (contigStore g m) uy e (by rw [hstart]; exact he)
  rw [hstart] at hm
  rw [hm]
  refine ⟨rfl, rfl, ?_, ?_, ?_⟩
  · intro j hj
    show readChunk (TU.run_chunks alen L B (ceilDiv alen L - m) m (contigStore g m)).store j =
      some (g j)
    rw [hr j, if_neg (by omega), readChunk_contigStore, if_pos hj]
  · intro j h1 h2
    show readChunk (TU.run_chunks alen L B (ceilDiv alen L - m) m (contigStore g m)).store j =
      some (f j)
    rw [hr j, if_pos ⟨h1, h2⟩]
  · show TU.start_chunk base base
      (TU.run_chunks alen L B (ceilDiv alen L - m) m (contigStore g m)).store = e
    rw [start_chunk_eq_length, hl, contigStore_length]
    omega

theorem claim7_amended_witness :
    (TU.mp3_to_transcript 250000 50000 "x"
      (fun st _ => if st == 100000 then some "n2" else none)
      ⟨contigStore (fun j => "c" ++ Nat.repr j) 2, none⟩ true).ret = .error 3 ∧
    (TU.mp3_to_transcript 250000 50000 "x"
      (fun st _ => if st == 100000 then some "n2" else none)
      ⟨contigStore (fun j => "c" ++ Nat.repr j) 2, none⟩ true).fs.final = none ∧
    (∀ j, j < 2 →
      readChunk (TU.mp3_to_transcript 250000 50000 "x"
        (fun st _ => if st == 100000 then some "n2" else none)
        ⟨contigStore (fun j => "c" ++ Nat.repr j) 2, none⟩ true).fs.chunks j =
        some ("c" ++ Nat.repr j)) ∧
    (∀ j, 2 ≤ j → j < 3 →
      readChunk (TU.mp3_to_transcript 250000 50000 "x"
        (fun st _ => if st == 100000 then some "n2" else none)
        ⟨contigStore (fun j => "c" ++ Nat.repr j) 2, none⟩ true).fs.chunks j =
        some "n2") ∧
    TU.start_chunk "x" "x"
      (TU.mp3_to_transcript 250000 50000 "x"
        (fun st _ => if st == 100000 then some "n2" else none)
        ⟨contigStore (fun j => "c" ++ Nat.repr j) 2, none⟩ true).fs.chunks = 3 :=
  claim7_amended 250000 50000 "x" (fun st _ => if st == 100000 then some "n2" else none)
    (fun _ => "n2") (fun j => "c" ++ Nat.repr j) 2 3 true (by decide) (by decide)
    (by decide) (by decide)

/-- Result fields of `AT.get_transcript` with no pre-existing final file when
the loop finishes without error, in terms of the loop's transcript. -/
lemma at_get_transcript_fields (alen cs : Nat) (B : Nat → Nat → Option String)
    (s : List (Nat × String)) (ncu : Bool) (T : String)
    (ht : (transcribe_chunk_loop B 0 (AT.split_audio_into_chunks alen cs) s).transcript = T)
    (he : (transcribe_chunk_loop B 0 (AT.split_audio_into_chunks alen cs) s).err = none) :
    (AT.get_transcript none alen cs B s ncu).ret = .ok T ∧
    (AT.get_transcript none alen cs B s ncu).final = (if T == "" then none else some T) ∧
    (AT.get_transcript none alen cs B s ncu).calls =
      (transcribe_chunk_loop B 0 (AT.split_audio_into_chunks alen cs) s).calls ∧
    (AT.get_transcript none alen cs B s ncu).cleaned =
      (if T == "" then false else !ncu) := by
  simp only [AT.get_transcript]
  rw [he, ht]
  by_cases hT : (T == "") = true
  · simp [hT]
  · have hT' : (T == "") = false := by
      revert hT
      cases T == "" <;> simp
    cases ncu <;> simp [hT']

/-- C2: interrupting a run (total backend) after chunk `k`'s record is
written and re-running produces the same final transcript contents as an
uninterrupted run, and the re-run invokes the backend only on chunks with
index greater than `k`.  This holds for `mp3_to_transcript` (whose resume
point is the number of cached records, here the contiguous prefix
`0 .. k`) and for `AudioTranscript.get_transcript` (which checks each chunk
record individually). -/
theorem claim2_idempotent_resume :
    (∀ (alen L k : Nat) (base : String) (f : Nat → Nat → String) (uy : Bool),
      k + 1 ≤ ceilDiv alen L →
      (TU.mp3_to_transcript alen L base (fun a b => some (f a b))
        ⟨(TU.run_chunks alen L (fun a b => some (f a b)) (k + 1) 0 []).store, none⟩
        uy).fs.final =
      (TU.mp3_to_transcript alen L base (fun a b => some (f a b))
        ⟨[], none⟩ uy).fs.final ∧
      (∀ j ∈ (TU.mp3_to_transcript alen L base (fun a b => some (f a b))
        ⟨(TU.run_chunks alen L (fun a b => some (f a b)) (k + 1) 0 []).store, none⟩
        uy).calls, k < j)) ∧
    (∀ (alen cs k : Nat) (f : Nat → Nat → String) (ncu : Bool),
      k < (AT.split_audio_into_chunks alen cs).length →
      (AT.get_transcript none alen cs (fun a b => some (f a b))
        (transcribe_chunk_loop (fun a b => some (f a b)) 0
          ((AT.split_audio_into_chunks alen cs).take (k + 1)) []).store ncu).ret =
      (AT.get_transcript none alen cs (fun a b => some (f a b)) [] ncu).ret ∧
      (AT.get_transcript none alen cs (fun a b => some (f a b))
        (transcribe_chunk_loop (fun a b => some (f a b)) 0
          ((AT.split_audio_into_chunks alen cs).take (k + 1)) []).store ncu).final =
      (AT.get_transcript none alen cs (fun a b => some (f a b)) [] ncu).final ∧
      (∀ j ∈ (AT.get_transcript none alen cs (fun a b => some (f a b))
        (transcribe_chunk_loop (fun a b => some (f a b)) 0
          ((AT.split_audio_into_chunks alen cs).take (k + 1)) []).store ncu).calls,
        k < j)) := by
  constructor
  · intro alen L k base f uy hk
    obtain ⟨eI, cI, lI, rI⟩ := run_chunks_ok alen L (fun a b => some (f a b))
      (fun j => f (min (j * L) alen) (min (j * L + L) alen)) (k + 1) 0 []
      (fun p hp => absurd hp (List.not_mem_nil p)) (fun j _ _ => rfl)
    have hkeys1 : ∀ p ∈ (TU.run_chunks alen L (fun a b => some (f a b)) (k + 1) 0 []).store,
        p.1 < k + 1 := by
      intro p hp
      rcases run_chunks_keys alen L (fun a b => some (f a b)) (k + 1) 0 [] p hp with h | h
      · exact absurd h (List.not_mem_nil p)
      · omega
    have hstart1 : TU.start_chunk base base
        (TU.run_chunks alen L (fun a b => some (f a b)) (k + 1) 0 []).store = k + 1 := by
      rw [start_chunk_eq_length, lI]
      simp
    obtain ⟨eR, cR, lR, rR⟩ := run_chunks_ok alen L (fun a b => some (f a b))
      (fun j => f (min (j * L) alen) (min (j * L + L) alen)) (ceilDiv alen L - (k + 1))
      (k + 1) (TU.run_chunks alen L (fun a b => some (f a b)) (k + 1) 0 []).store
      hkeys1 (fun j _ _ => rfl)
    have hmR := mp3_no_final_ok alen L base (fun a b => some (f a b))
      (TU.run_chunks alen L (fun a b => some (f a b)) (k + 1) 0 []).store uy
      (by rw [hstart1]; exact eR)
    rw [hstart1] at hmR
    obtain ⟨eF, cF, lF, rF⟩ := run_chunks_ok alen L (fun a b => some (f a b))
      (fun j => f (min (j * L) alen) (min (j * L + L) alen)) (ceilDiv alen L) 0 []
      (fun p hp => absurd hp (List.not_mem_nil p)) (fun j _ _ => rfl)
    have hmF := mp3_no_final_ok alen L base (fun a b => some (f a b)) [] uy
      (by
        rw [show TU.start_chunk base base ([] : List (Nat × String)) = 0 from rfl,
          Nat.sub_zero]
        exact eF)
    rw [show TU.start_chunk base base ([] : List (Nat × String)) = 0 from rfl,
      Nat.sub_zero] at hmF
    have hsplit := run_chunks_split alen L (fun a b => some (f a b)) (k + 1)
      (ceilDiv alen L - (k + 1)) 0 [] eI
    rw [show (k + 1) + (ceilDiv alen L - (k + 1)) = ceilDiv alen L from by omega,
      Nat.zero_add] at hsplit
    constructor
    · rw [hmR, hmF, hsplit]
    · intro j hj
      rw [hmR] at hj
      have hj' : j ∈ List.range' (k + 1) (ceilDiv alen L - (k + 1)) := by
        rw [← cR]
        exact hj
      have := List.mem_range'_1.mp hj'
      omega
  · intro alen cs k f ncu hk
    have H0 : ∀ p seg t, (AT.split_audio_into_chunks alen cs).get? p = some seg →
        readChunk [] (0 + p) = some t → t = f seg.1 seg.2 := by
      intro p seg t _ h2
      exact absurd h2 (by simp [readChunk])
    obtain ⟨t0, e0⟩ := loop_spec (fun a b => some (f a b)) f (fun _ _ => rfl)
      (AT.split_audio_into_chunks alen cs) 0 [] H0
    have Hsk : ∀ p seg t, (AT.split_audio_into_chunks alen cs).get? p = some seg →
        readChunk (transcribe_chunk_loop (fun a b => some (f a b)) 0
          ((AT.split_audio_into_chunks alen cs).take (k + 1)) []).store (0 + p) =
          some t → t = f seg.1 seg.2 := by
      intro p seg t h1 h2
      rw [loop_read_fresh (fun a b => some (f a b)) f (fun _ _ => rfl)
        ((AT.split_audio_into_chunks alen cs).take (k + 1)) 0 []
        (fun q hq => absurd hq (List.not_mem_nil q)) (0 + p) (by omega)] at h2
      rw [Nat.zero_add, Nat.sub_zero] at h2
      by_cases hp : p < k + 1
      · rw [List.get?_take hp, h1] at h2
        simp at h2
        exact h2.symm
      · have hlen : ((AT.split_audio_into_chunks alen cs).take (k + 1)).length ≤ p := by
          rw [List.length_take]
          omega
        rw [List.get?_eq_none.mpr hlen] at h2
        exact absurd h2 (by simp)
    obtain ⟨tk, ek⟩ := loop_spec (fun a b => some (f a b)) f (fun _ _ => rfl)
      (AT.split_audio_into_chunks alen cs) 0
      (transcribe_chunk_loop (fun a b => some (f a b)) 0
        ((AT.split_audio_into_chunks alen cs).take (k + 1)) []).store Hsk
    obtain ⟨rk1, rk2, rk3, _⟩ := at_get_transcript_fields alen cs (fun a b => some (f a b))
      (transcribe_chunk_loop (fun a b => some (f a b)) 0
        ((AT.split_audio_into_chunks alen cs).take (k + 1)) []).store ncu
      (joinAll ((AT.split_audio_into_chunks alen cs).map (fun seg => f seg.1 seg.2)))
      tk ek
    obtain ⟨r01, r02, r03, _⟩ := at_get_transcript_fields alen cs (fun a b => some (f a b))
      [] ncu (joinAll ((AT.split_audio_into_chunks alen cs).map (fun seg => f seg.1 seg.2)))
      t0 e0
    refine ⟨by rw [rk1, r01], by rw [rk2, r02], ?_⟩
    intro j hj
    rw [rk3] at hj
    obtain ⟨h1, h2⟩ := loop_calls_mem (fun a b => some (f a b))
      (AT.split_audio_into_chunks alen cs) 0
      (transcribe_chunk_loop (fun a b => some (f a b)) 0
        ((AT.split_audio_into_chunks alen cs).take (k + 1)) []).store j hj
    by_contra hjk
    have hjk' : j < k + 1 := by omega
    rw [loop_read_fresh (fun a b => some (f a b)) f (fun _ _ => rfl)
      ((AT.split_audio_into_chunks alen cs).take (k + 1)) 0 []
      (fun q hq => absurd hq (List.not_mem_nil q)) j (by omega)] at h2
    rw [Nat.sub_zero, List.get?_take hjk',
      List.get?_eq_get (by omega : j < (AT.split_audio_into_chunks alen cs).length)] at h2
    exact absurd h2 (by simp)

theorem claim2_witness :
    ((TU.mp3_to_transcript 150000 60000 "x" (fun a b => some ("t" ++ Nat.repr a))
        ⟨(TU.run_chunks 150000 60000 (fun a b => some ("t" ++ Nat.repr a)) 1 0 []).store,
         none⟩ true).fs.final =
      (TU.mp3_to_transcript 150000 60000 "x" (fun a b => some ("t" ++ Nat.repr a))
        ⟨[], none⟩ true).fs.final ∧
     (∀ j ∈ (TU.mp3_to_transcript 150000 60000 "x" (fun a b => some ("t" ++ Nat.repr a))
        ⟨(TU.run_chunks 150000 60000 (fun a b => some ("t" ++ Nat.repr a)) 1 0 []).store,
         none⟩ true).calls, 0 < j)) ∧
    ((AT.get_transcript none 150000 60 (fun a b => some ("t" ++ Nat.repr a))
        (transcribe_chunk_loop (fun a b => some ("t" ++ Nat.repr a)) 0
          ((AT.split_audio_into_chunks 150000 60).take 1) []).store true).ret =
      (AT.get_transcript none 150000 60 (fun a b => some ("t" ++ Nat.repr a)) [] true).ret ∧
     (AT.get_transcript none 150000 60 (fun a b => some ("t" ++ Nat.repr a))
        (transcribe_chunk_loop (fun a b => some ("t" ++ Nat.repr a)) 0
          ((AT.split_audio_into_chunks 150000 60).take 1) []).store true).final =
      (AT.get_transcript none 150000 60 (fun a b => some ("t" ++ Nat.repr a)) [] true).final ∧
     (∀ j ∈ (AT.get_transcript none 150000 60 (fun a b => some ("t" ++ Nat.repr a))
        (transcribe_chunk_loop (fun a b => some ("t" ++ Nat.repr a)) 0
          ((AT.split_audio_into_chunks 150000 60).take 1) []).store true).calls, 0 < j)) :=
  ⟨claim2_idempotent_resume.1 150000 60000 0 "x" (fun a b => "t" ++ Nat.repr a) true
    (by decide),
   claim2_idempotent_resume.2 150000 60 0 (fun a b => "t" ++ Nat.repr a) true (by decide)⟩

lemma joinAll_map_empty {α : Type} (l : List α) :
    joinAll (l.map (fun _ => "")) = "" := by
  induction l with
  | nil => rfl
  | cons x xs ih =>
    show "" ++ joinAll (xs.map (fun _ => "")) = ""
    rw [ih]
    rfl

/-- Result fields of `YT.get_transcript` when the loop finishes without
error, in terms of the loop's transcript. -/
lemma yt_get_transcript_fields (alen cs : Nat) (B : Nat → Nat → Option String)
    (s : List (Nat × String)) (T : String)
    (ht : (transcribe_chunk_loop B 0 (YT.get_chunks_by_seconds alen cs) s).transcript = T)
    (he : (transcribe_chunk_loop B 0 (YT.get_chunks_by_seconds alen cs) s).err = none) :
    (YT.get_transcript alen cs B s).ret = .ok T ∧
    (YT.get_transcript alen cs B s).final = (if T == "" then none else some T) ∧
    (YT.get_transcript alen cs B s).calls =
      (transcribe_chunk_loop B 0 (YT.get_chunks_by_seconds alen cs) s).calls ∧
    (YT.get_transcript alen cs B s).store =
      (transcribe_chunk_loop B 0 (YT.get_chunks_by_seconds alen cs) s).store := by
  simp only [YT.get_transcript]
  rw [he, ht]
  by_cases hT : (T == "") = true
  · simp [hT]
  · have hT' : (T == "") = false := by
      revert hT
      cases T == "" <;> simp
    simp [hT']

/-- Result fields of `YT.get_transcript` when the loop raises. -/
lemma yt_get_transcript_err (alen cs : Nat) (B : Nat → Nat → Option String)
    (s : List (Nat × String)) (e : Nat)
    (he : (transcribe_chunk_loop B 0 (YT.get_chunks_by_seconds alen cs) s).err = some e) :
    (YT.get_transcript alen cs B s).ret = .error e ∧
    (YT.get_transcript alen cs B s).store =
      (transcribe_chunk_loop B 0 (YT.get_chunks_by_seconds alen cs) s).store := by
  simp only [YT.get_transcript]
  rw [he]
  exact ⟨rfl, rfl⟩

/-- C9 (counterexample): zero-duration audio is not treated as a fatal input
error: `mp3_to_transcript` succeeds without invoking the backend and writes
an *empty* final transcript file, and `YouTubeTranscript.get_transcript`
silently returns the empty string. -/
theorem claim9_counterexample :
    (TU.mp3_to_transcript 0 60000 "x" (fun _ _ => some "t") ⟨[], none⟩ true).ret =
      .ok "x/x.txt" ∧
    (TU.mp3_to_transcript 0 60000 "x" (fun _ _ => some "t") ⟨[], none⟩ true).fs.final =
      some "" ∧
    (TU.mp3_to_transcript 0 60000 "x" (fun _ _ => some "t") ⟨[], none⟩ true).calls = [] ∧
    (YT.get_transcript 0 100 (fun _ _ => some "t") []).ret = .ok "" :=
  ⟨rfl, by decide, by decide, rfl⟩

/-- C9 (amended): zero-duration audio yields zero segments in every variant,
but the pipeline accepts it silently rather than failing: `mp3_to_transcript`
returns successfully having written an empty final transcript (partial state
on disk), and `YouTubeTranscript.get_transcript` returns the empty string and
writes nothing, raising no error in either variant. -/
theorem claim9_amended (L cs : Nat) (base : String) (B : Nat → Nat → Option String)
    (uy : Bool) (hL : 0 < L) :
    TU.segments 0 L = [] ∧
    YT.get_chunks_by_seconds 0 cs = [] ∧
    (TU.mp3_to_transcript 0 L base B ⟨[], none⟩ uy).ret =
      .ok (TU.get_output_file_path base base "txt") ∧
    (TU.mp3_to_transcript 0 L base B ⟨[], none⟩ uy).fs.final = some "" ∧
    (TU.mp3_to_transcript 0 L base B ⟨[], none⟩ uy).calls = [] ∧
    (YT.get_transcript 0 cs B []).ret = .ok "" ∧
    (YT.get_transcript 0 cs B []).final = none := by
  have hseg : TU.segments 0 L = [] := by
    unfold TU.segments
    rw [ceilDiv_zero_left]
    rfl
  have hyt : YT.get_chunks_by_seconds 0 cs = [] := by
    simp only [YT.get_chunks_by_seconds]
    rw [ceilDiv_zero_left]
    rfl
  have hrun : TU.run_chunks 0 L B
      (ceilDiv 0 L - TU.start_chunk base base []) (TU.start_chunk base base []) [] =
      ⟨[], [], none⟩ := by
    rw [ceilDiv_zero_left]
    rfl
  have hm := mp3_no_final_ok 0 L base B [] uy (by rw [hrun])
  rw [hrun] at hm
  have hloop : transcribe_chunk_loop B 0 (YT.get_chunks_by_seconds 0 cs) [] =
      ⟨"", [], [], none⟩ := by
    rw [hyt]
    rfl
  obtain ⟨y1, y2, _, _⟩ := yt_get_transcript_fields 0 cs B [] ""
    (by rw [hloop]) (by rw [hloop])
  exact ⟨hseg, hyt, by rw [hm], by rw [hm]; rfl, by rw [hm], y1, by rw [y2]; rfl⟩

theorem claim9_witness :
    TU.segments 0 60000 = [] ∧
    YT.get_chunks_by_seconds 0 100 = [] ∧
    (TU.mp3_to_transcript 0 60000 "x" (fun _ _ => some "t") ⟨[], none⟩ true).ret =
      .ok (TU.get_output_file_path "x" "x" "txt") ∧
    (TU.mp3_to_transcript 0 60000 "x" (fun _ _ => some "t") ⟨[], none⟩ true).fs.final =
      some "" ∧
    (TU.mp3_to_transcript 0 60000 "x" (fun _ _ => some "t") ⟨[], none⟩ true).calls = [] ∧
    (YT.get_transcript 0 100 (fun _ _ => some "t") []).ret = .ok "" ∧
    (YT.get_transcript 0 100 (fun _ _ => some "t") []).final = none :=
  claim9_amended 60000 100 "x" (fun _ _ => some "t") true (by decide)

/-- C10: in the concatenation-based variants, the final transcript artifact
is written exactly when the concatenated text is non-empty; when every chunk
text (cached or freshly transcribed) is empty, `get_transcript` returns the
empty string, writes no final transcript, performs no cleanup of chunk
artifacts, and leaves all cached records in place. -/
theorem claim10_empty_transcript :
    (∀ (alen cs : Nat) (B : Nat → Nat → Option String) (s : List (Nat × String))
      (T : String), (YT.get_transcript alen cs B s).ret = .ok T →
      (((YT.get_transcript alen cs B s).final).isSome = true ↔ ¬ T = "")) ∧
    (∀ (alen cs : Nat) (B : Nat → Nat → Option String) (s : List (Nat × String))
      (j : Nat) (t : String), readChunk s j = some t →
      readChunk (YT.get_transcript alen cs B s).store j = some t) ∧
    (∀ (alen cs : Nat) (B : Nat → Nat → Option String) (s : List (Nat × String))
      (ncu : Bool),
      (∀ a b', B a b' = some "") →
      (∀ j t, readChunk s j = some t → t = "") →
      (YT.get_transcript alen cs B s).ret = .ok "" ∧
      (YT.get_transcript alen cs B s).final = none ∧
      (AT.get_transcript none alen cs B s ncu).ret = .ok "" ∧
      (AT.get_transcript none alen cs B s ncu).final = none ∧
      (AT.get_transcript none alen cs B s ncu).cleaned = false) := by
  refine ⟨?_, ?_, ?_⟩
  · intro alen cs B s T h
    cases he : (transcribe_chunk_loop B 0 (YT.get_chunks_by_seconds alen cs) s).err with
    | some e =>
      obtain ⟨h1, _⟩ := yt_get_transcript_err alen cs B s e he
      rw [h1] at h
      exact absurd h (by simp)
    | none =>
      obtain ⟨h1, h2, _, _⟩ := yt_get_transcript_fields alen cs B s _ rfl he
      rw [h1] at h
      have hT : (transcribe_chunk_loop B 0 (YT.get_chunks_by_seconds alen cs) s).transcript
          = T := by
        injection h
      rw [h2, ← hT]
      by_cases hc :
          (transcribe_chunk_loop B 0 (YT.get_chunks_by_seconds alen cs) s).transcript = ""
      · simp [hc]
      · simp [hc]
  · intro alen cs B s j t hjt
    cases he : (transcribe_chunk_loop B 0 (YT.get_chunks_by_seconds alen cs) s).err with
    | some e =>
      obtain ⟨_, h2⟩ := yt_get_transcript_err alen cs B s e he
      rw [h2]
      exact loop_store_preserve B (YT.get_chunks_by_seconds alen cs) 0 s j t hjt
    | none =>
      obtain ⟨_, _, _, h4⟩ := yt_get_transcript_fields alen cs B s _ rfl he
      rw [h4]
      exact loop_store_preserve B (YT.get_chunks_by_seconds alen cs) 0 s j t hjt
  · intro alen cs B s ncu hB hs
    have HB : ∀ a b', B a b' = some ((fun _ _ => "") a b') := fun a b' => hB a b'
    have Hyt : ∀ p seg t, (YT.get_chunks_by_seconds alen cs).get? p = some seg →
        readChunk s (0 + p) = some t → t = (fun _ _ => "") seg.1 seg.2 := by
      intro p seg t _ h2
      exact hs (0 + p) t h2
    obtain ⟨tyt, eyt⟩ := loop_spec B (fun _ _ => "") HB
      (YT.get_chunks_by_seconds alen cs) 0 s Hyt
    rw [joinAll_map_empty] at tyt
    obtain ⟨y1, y2, _, _⟩ := yt_get_transcript_fields alen cs B s "" tyt eyt
    have Hat : ∀ p seg t, (AT.split_audio_into_chunks alen cs).get? p = some seg →
        readChunk s (0 + p) = some t → t = (fun _ _ => "") seg.1 seg.2 := by
      intro p seg t _ h2
      exact hs (0 + p) t h2
    obtain ⟨tat, eat⟩ := loop_spec B (fun _ _ => "") HB
      (AT.split_audio_into_chunks alen cs) 0 s Hat
    rw [joinAll_map_empty] at tat
    obtain ⟨a1, a2, _, a4⟩ := at_get_transcript_fields alen cs B s ncu "" tat eat
    refine ⟨y1, by rw [y2]; rfl, a1, by rw [a2]; rfl, by rw [a4]; rfl⟩

theorem claim10_witness :
    (((YT.get_transcript 120000 60 (fun _ _ => some "txt") []).final).isSome = true ↔
      ¬ "txttxt" = "") ∧
    readChunk (YT.get_transcript 120000 60 (fun _ _ => some "txt") [(0, "a")]).store 0 =
      some "a" ∧
    ((YT.get_transcript 120000 60 (fun _ _ => some "") []).ret = .ok "" ∧
     (YT.get_transcript 120000 60 (fun _ _ => some "") []).final = none ∧
     (AT.get_transcript none 120000 60 (fun _ _ => some "") [] true).ret = .ok "" ∧
     (AT.get_transcript none 120000 60 (fun _ _ => some "") [] true).final = none ∧
     (AT.get_transcript none 120000 60 (fun _ _ => some "") [] true).cleaned = false) :=
  ⟨claim10_empty_transcript.1 120000 60 (fun _ _ => some "txt") [] "txttxt" rfl,
   claim10_empty_transcript.2.1 120000 60 (fun _ _ => some "txt") [(0, "a")] 0 "a"
     (by decide),
   claim10_empty_transcript.2.2 120000 60 (fun _ _ => some "") [] true
     (fun _ _ => rfl) (fun j t h => by simp [readChunk, List.find?] at h)⟩
